import Mathlib

/-!
Shallow embedding of `src/portconews.py`, the news-feed aggregation app.

The only piece of the file with data logic is `load_news_data` (lines
32-84): it acquires credentials (Streamlit secrets or a local
`credentials.json`), fetches all records of the first worksheet of a
Google Sheet, builds a pandas DataFrame, synthesizes any missing expected
column as empty text, coerces the `Date` column with
`pd.to_datetime(..., errors=coerce)` (unparsable values become `NaT`),
and sorts by `Date` descending (`sort_values`, default `na_position=last`).
Every exception inside the `try` block is caught and replaced by an empty
DataFrame with the five expected columns.

The embedding models a DataFrame as a column-name list plus a list of
rows of cells; `pd.to_datetime` is an oracle parameter
`parse : String → Option Int` (`none` is the `NaT` marker); the side
effects `st.error` / `st.warning` are collected as a message list.
-/

namespace Portconews

/-- A DataFrame cell: either text (as read from the worksheet) or a
coerced timestamp, where `ts none` is the `NaT` (null timestamp) marker
produced by `pd.to_datetime(..., errors=coerce)`. -/
inductive Cell where
  | str : String → Cell
  | ts : Option Int → Cell
deriving DecidableEq, Repr

/-- The text stored in a cell (coerced cells read as empty text). -/
def Cell.asStr : Cell → String
  | .str s => s
  | .ts _ => ""

/-- The timestamp key of a cell: `none` both for the `NaT` marker and for
non-coerced cells (the latter never occur in a coerced `Date` column). -/
def Cell.tsKey : Cell → Option Int
  | .str _ => none
  | .ts o => o

/-- `true` exactly on cells holding a real (non-`NaT`) timestamp. -/
def Cell.validTs : Cell → Bool
  | .ts (some _) => true
  | _ => false

/-- A pandas DataFrame, reduced to what `load_news_data` uses: ordered
column names and row-major cells. -/
structure DataFrame where
  cols : List String
  rows : List (List Cell)
deriving DecidableEq, Repr

/-- Messages emitted through `st.error` / `st.warning`. -/
inductive Msg where
  | error : String → Msg
  | warning : String → Msg
deriving DecidableEq, Repr

/-- `expected_columns` of `load_news_data` (line 65). -/
def expected_columns : List String := ["Date", "Company", "Title", "Link", "Category"]

/-- `pd.DataFrame(columns=expected_columns)`: the empty fallback table
returned on missing credentials (line 45) and on a caught exception
(line 84). -/
def emptyExpected : DataFrame := ⟨expected_columns, []⟩

/-- Element of a list at index `i`, with default `d` out of range. -/
def nthD (d : α) : Nat → List α → α
  | _, [] => d
  | 0, x :: _ => x
  | n + 1, _ :: xs => nthD d n xs

/-- Index of the first occurrence of `a` (the length of the list if absent):
the column lookup used to read and write one DataFrame column. -/
def colIdx : List String → String → Nat
  | [], _ => 0
  | c :: cs, a => if c = a then 0 else colIdx cs a + 1

/-- Apply `f` to the element at index `i`, leaving other positions (and
too-short lists) unchanged. -/
def mapAt (f : α → α) : Nat → List α → List α
  | _, [] => []
  | 0, x :: xs => f x :: xs
  | n + 1, x :: xs => x :: mapAt f n xs

/-- `pd.DataFrame(data)` for `data = worksheet.get_all_records()` (lines
61-62): a list of per-row dicts whose shared key order is the header row.
An empty record list yields a DataFrame with no columns at all. -/
def mkDF (headers : List String) (rows : List (List String)) : DataFrame :=
  if rows.isEmpty then ⟨[], []⟩
  else ⟨headers, rows.map (fun r => r.map Cell.str)⟩

/-- `missing_cols` (line 67): expected columns absent from the fetched
DataFrame. -/
def missing_cols (df : DataFrame) : List String :=
  expected_columns.filter (fun c => !(df.cols.contains c))

/-- `df[col] = ""` for a fresh column name: appends the column and gives
every existing row the scalar value. -/
def addColumn (df : DataFrame) (c : String) (v : Cell) : DataFrame :=
  ⟨df.cols ++ [c], df.rows.map (fun r => r ++ [v])⟩

/-- Lines 70-71: synthesize each missing expected column as empty text
across all rows. -/
def repairColumns (df : DataFrame) : DataFrame :=
  (missing_cols df).foldl (fun d c => addColumn d c (.str "")) df

/-- Line 75, `df["Date"] = pd.to_datetime(df["Date"], errors=coerce)`:
replace every `Date` cell by its coerced timestamp, with `parse` standing
for the `pd.to_datetime` date grammar (`none` = `NaT`). -/
def coerceDates (parse : String → Option Int) (df : DataFrame) : DataFrame :=
  ⟨df.cols, df.rows.map (mapAt (fun c => Cell.ts (parse c.asStr)) (colIdx df.cols "Date"))⟩

/-- Insert `x` into a list sorted nonincreasingly by `k`, before the first
element whose key is not larger. -/
def insertDesc (k : α → Int) (x : α) : List α → List α
  | [] => [x]
  | y :: ys => if k x < k y then y :: insertDesc k x ys else x :: y :: ys

/-- Sort nonincreasingly by `k` (insertion sort). -/
def isortDesc (k : α → Int) : List α → List α
  | [] => []
  | x :: xs => insertDesc k x (isortDesc k xs)

/-- The key a row is sorted by: the timestamp of its `Date` cell. -/
def dateKey (cols : List String) (r : List Cell) : Option Int :=
  (nthD (Cell.str "") (colIdx cols "Date") r).tsKey

/-- `df.sort_values(by="Date", ascending=False)` (line 77), following
pandas `nargsort` with its default `na_position=last`: rows whose key is
`NaT` are split off and appended after the sorted non-null rows. The
source leaves `kind` at its default `quicksort`, whose ordering of equal
keys is implementation-defined; this model fixes a deterministic
(insertion-sort) order among ties, which no theorem below relies on. -/
def sort_values_date_desc (df : DataFrame) : DataFrame :=
  ⟨df.cols,
    isortDesc (fun r => (dateKey df.cols r).getD 0)
        (df.rows.filter (fun r => (dateKey df.cols r).isSome))
      ++ df.rows.filter (fun r => !(dateKey df.cols r).isSome)⟩

/-- Lines 62-79: the body of `load_news_data` after a successful
`get_all_records`, from DataFrame construction to the returned table. -/
def processFetched (parse : String → Option Int) (headers : List String)
    (rows : List (List String)) : DataFrame × List Msg :=
  let df := mkDF headers rows
  let missing := missing_cols df
  let msgs : List Msg :=
    if missing.isEmpty then []
    else [.warning ("Missing columns in Google Sheet: " ++ String.intercalate ", " missing)]
  let df2 := repairColumns df
  if df2.cols.contains "Date" && !df2.rows.isEmpty then
    (sort_values_date_desc (coerceDates parse df2), msgs)
  else (df2, msgs)

/-- Outcome of the fallible steps of the `try` block once credentials are
being read: either some step (reading/evaluating `credentials.json`,
building the service-account credentials, `gspread.authorize`,
`open_by_url`, `get_worksheet`, `get_all_records`) raised, or the fetch
succeeded with the header row of the worksheet and data rows. -/
inductive FetchOutcome where
  | raised : String → FetchOutcome
  | fetched : List String → List (List String) → FetchOutcome

/-- The ambient state `load_news_data` reads: whether
the gcp_service_account entry of `st.secrets` exists, whether `credentials.json`
exists, and how the credential/auth/fetch steps turn out. -/
structure Env where
  hasSecrets : Bool
  credFileExists : Bool
  outcome : FetchOutcome

/-- Lines 55-84 after the credential branch: run the fetch; a raise is
caught by the `except` handler (lines 81-84) and replaced by the empty
expected table plus an `st.error` message. -/
def runFetch (parse : String → Option Int) : FetchOutcome → DataFrame × List Msg
  | .raised e => (emptyExpected, [.error ("Error loading data from Google Sheets: " ++ e)])
  | .fetched headers rows => processFetched parse headers rows

/-- `load_news_data` (lines 32-84). With secrets present the local
credential file is never consulted; with neither source available the
function reports an error and returns the empty expected table
(lines 43-45); otherwise the fetch runs and any raise is caught. -/
def load_news_data (parse : String → Option Int) (env : Env) : DataFrame × List Msg :=
  if env.hasSecrets then
    runFetch parse env.outcome
  else if env.credFileExists then
    runFetch parse env.outcome
  else
    (emptyExpected,
      [.error "Google Sheets API credentials not found. Please add credentials.json file."])

/-- The `Date` column of a DataFrame, row by row. -/
def dateColOf (df : DataFrame) : List Cell :=
  df.rows.map (nthD (Cell.str "") (colIdx df.cols "Date"))

/-- The `Date` sort key of each row, in row order. -/
def dateKeys (df : DataFrame) : List (Option Int) :=
  df.rows.map (dateKey df.cols)

/-- Rows are aligned with the header: what `get_all_records` guarantees
about the record dicts it returns. -/
abbrev Aligned (headers : List String) (rows : List (List String)) : Prop :=
  ∀ r ∈ rows, r.length = headers.length

/-- The row-major order `sort_values` establishes on `Date` keys:
descending among real timestamps, with `NaT` below everything. -/
def keyGE : Option Int → Option Int → Prop
  | _, none => True
  | some x, some y => y ≤ x
  | none, some _ => False

/-- Value of a decimal digit character, `none` otherwise. -/
def digitVal (c : Char) : Option Nat :=
  if '0' ≤ c ∧ c ≤ '9' then some (c.toNat - '0'.toNat) else none

/-- Read a nonempty all-digit character group as a number. -/
def charsToNatAux : List Char → Nat → Option Nat
  | [], acc => some acc
  | c :: cs, acc =>
    match digitVal c with
    | some d => charsToNatAux cs (acc * 10 + d)
    | none => none

/-- Read a character group as a number (`none` if empty or non-digit). -/
def charsToNat? (cs : List Char) : Option Nat :=
  if cs.isEmpty then none else charsToNatAux cs 0

/-- Split a character list at dashes. -/
def splitDash : List Char → List (List Char)
  | [] => [[]]
  | c :: cs =>
    if c = '-' then [] :: splitDash cs
    else
      match splitDash cs with
      | [] => [[c]]
      | g :: gs => (c :: g) :: gs

/-- A concrete instance of the `pd.to_datetime` oracle, used for witnesses
and counterexamples: ISO `YYYY-MM-DD` strings map to the sortable key
`y * 10000 + m * 100 + d`, anything else to the `NaT` marker `none` -
matching the actual behaviour of coercion on these inputs. -/
def parseDateSimple (s : String) : Option Int :=
  match (splitDash s.data).map charsToNat? with
  | [some y, some m, some d] =>
    if 1 ≤ m ∧ m ≤ 12 ∧ 1 ≤ d ∧ d ≤ 31 then some (Int.ofNat (y * 10000 + m * 100 + d))
    else none
  | _ => none

/-- Modelled from the spec: one feed entry of the FeedIngestor pipeline,
whose implementation is not under `src/` (only the SheetIngestor is); the
spec gives it a title, a link, publication timestamp fields and a
description, of which only the link matters to deduplication. -/
structure FeedEntry where
  title : String
  link : String
  published : String
  description : String
deriving DecidableEq, Repr

/-- Modelled from the spec: the dedup-by-link loop of the FeedIngestor -
entries are processed in source order, an entry whose link was already
seen in this run is skipped, otherwise it is kept and its link recorded
(an empty link is treated like any other link value). -/
def dedupGo (seen : List String) : List FeedEntry → List FeedEntry
  | [] => []
  | e :: es =>
    if e.link ∈ seen then dedupGo seen es
    else e :: dedupGo (e.link :: seen) es

/-- Modelled from the spec: the deduplication of one FeedIngestor run,
starting from no seen links. -/
def dedupByLink (l : List FeedEntry) : List FeedEntry :=
  dedupGo [] l

/-- A successful-fetch environment whose worksheet carries the five expected
columns plus an extra `Description` column. -/
def envExtra : Env :=
  ⟨true, true, .fetched ["Date", "Company", "Title", "Link", "Category", "Description"]
    [["2024-01-03", "Acme", "T", "http://x", "News", "d"]]⟩

/-- A successful-fetch environment with one row whose `Date` text is
unparsable. -/
def envBad : Env :=
  ⟨true, true, .fetched ["Date", "Company", "Title", "Link", "Category"]
    [["not a date", "A", "T", "L", "C"]]⟩

/-- A successful-fetch environment whose worksheet has only the `Date` and
`Title` columns and two parsable rows in ascending date order. -/
def envTwo : Env :=
  ⟨true, true, .fetched ["Date", "Title"]
    [["2024-01-01", "A"], ["2024-01-02", "B"]]⟩

/-- First concrete feed entry of a duplicated-link pair. -/
def feedA : FeedEntry := ⟨"A", "http://dup", "2024-01-01", "a"⟩

/-- Second concrete feed entry with the same link as `feedA`. -/
def feedB : FeedEntry := ⟨"B", "http://dup", "2024-01-02", "b"⟩

/-- A concrete feed entry with a distinct link. -/
def feedC : FeedEntry := ⟨"C", "http://other", "2024-01-03", "c"⟩

/-! ### List index lemmas -/

theorem nthD_append_left (d : α) : ∀ (i : Nat) (l1 l2 : List α), i < l1.length →
    nthD d i (l1 ++ l2) = nthD d i l1
  | _, [], _, h => absurd h (Nat.not_lt_zero _)
  | 0, _ :: _, _, _ => rfl
  | i + 1, _ :: xs, l2, h => nthD_append_left d i xs l2 (Nat.lt_of_succ_lt_succ h)

theorem nthD_append_right (d : α) : ∀ (l1 l2 : List α) (j : Nat),
    nthD d (l1.length + j) (l1 ++ l2) = nthD d j l2
  | [], l2, j => by rw [List.length_nil, Nat.zero_add]; rfl
  | x :: xs, l2, j => by
    have h : (x :: xs).length + j = (xs.length + j) + 1 := by
      rw [List.length_cons]; omega
    rw [h]
    exact nthD_append_right d xs l2 j

theorem nthD_replicate (d v : α) : ∀ (j n : Nat), j < n → nthD d j (List.replicate n v) = v
  | _, 0, h => absurd h (Nat.not_lt_zero _)
  | 0, n + 1, _ => by rw [List.replicate_succ]; rfl
  | j + 1, n + 1, h => by
    rw [List.replicate_succ]
    exact nthD_replicate d v j n (Nat.lt_of_succ_lt_succ h)

theorem length_mapAt (f : α → α) : ∀ (i : Nat) (l : List α), (mapAt f i l).length = l.length
  | i, [] => by cases i <;> rfl
  | 0, _ :: _ => rfl
  | i + 1, _ :: xs => by
    show (mapAt f i xs).length + 1 = xs.length + 1
    rw [length_mapAt f i xs]

theorem nthD_mapAt_self (d : α) (f : α → α) : ∀ (i : Nat) (l : List α), i < l.length →
    nthD d i (mapAt f i l) = f (nthD d i l)
  | _, [], h => absurd h (Nat.not_lt_zero _)
  | 0, _ :: _, _ => rfl
  | i + 1, _ :: xs, h => nthD_mapAt_self d f i xs (Nat.lt_of_succ_lt_succ h)

theorem nthD_mapAt_ne (d : α) (f : α → α) : ∀ (i j : Nat) (l : List α), i ≠ j →
    nthD d j (mapAt f i l) = nthD d j l
  | i, _, [], _ => by cases i <;> rfl
  | 0, 0, _ :: _, h => absurd rfl h
  | 0, _ + 1, _ :: _, _ => rfl
  | _ + 1, 0, _ :: _, _ => rfl
  | i + 1, j + 1, _ :: xs, h =>
    nthD_mapAt_ne d f i j xs (fun hh => h (by rw [hh]))

theorem colIdx_lt_length : ∀ (l : List String) (a : String), a ∈ l → colIdx l a < l.length
  | [], a, h => absurd h (List.not_mem_nil a)
  | c :: cs, a, h => by
    by_cases hc : c = a
    · simp only [colIdx, if_pos hc, List.length_cons]
      omega
    · have ha : a ∈ cs := (List.mem_cons.mp h).resolve_left (fun hh => hc hh.symm)
      simp only [colIdx, if_neg hc, List.length_cons]
      exact Nat.succ_lt_succ (colIdx_lt_length cs a ha)

theorem nthD_colIdx (d : String) : ∀ (l : List String) (a : String), a ∈ l →
    nthD d (colIdx l a) l = a
  | [], a, h => absurd h (List.not_mem_nil a)
  | c :: cs, a, h => by
    by_cases hc : c = a
    · simp only [colIdx, if_pos hc]
      exact hc
    · have ha : a ∈ cs := (List.mem_cons.mp h).resolve_left (fun hh => hc hh.symm)
      simp only [colIdx, if_neg hc]
      exact nthD_colIdx d cs a ha

theorem colIdx_append_left (l2 : List String) : ∀ (l : List String) (a : String), a ∈ l →
    colIdx (l ++ l2) a = colIdx l a
  | [], a, h => absurd h (List.not_mem_nil a)
  | c :: cs, a, h => by
    by_cases hc : c = a
    · simp only [List.cons_append, colIdx, if_pos hc]
    · have ha : a ∈ cs := (List.mem_cons.mp h).resolve_left (fun hh => hc hh.symm)
      simp only [List.cons_append, colIdx, if_neg hc, List.append_eq,
        colIdx_append_left l2 cs a ha]

theorem colIdx_append_right (l2 : List String) : ∀ (l : List String) (a : String), a ∉ l →
    colIdx (l ++ l2) a = l.length + colIdx l2 a
  | [], _, _ => (Nat.zero_add _).symm
  | c :: cs, a, h => by
    have hc : ¬ c = a := by
      intro hh
      exact h (by rw [← hh]; exact List.mem_cons_self c cs)
    have ha : a ∉ cs := fun hh => h (List.Mem.tail c hh)
    simp only [List.cons_append, colIdx, if_neg hc, List.append_eq,
      colIdx_append_right l2 cs a ha, List.length_cons]
    omega

theorem colIdx_ne_of_ne (l : List String) (a b : String) (ha : a ∈ l) (hb : b ∈ l)
    (hab : a ≠ b) : colIdx l a ≠ colIdx l b := by
  intro he
  have h1 := nthD_colIdx "" l a ha
  have h2 := nthD_colIdx "" l b hb
  rw [he] at h1
  exact hab (h1.symm.trans h2)

/-! ### Insertion-sort lemmas -/

theorem insertDesc_perm (k : α → Int) (x : α) : ∀ (l : List α), (insertDesc k x l).Perm (x :: l)
  | [] => List.Perm.refl _
  | y :: ys => by
    by_cases h : k x < k y
    · simp only [insertDesc, if_pos h]
      exact ((insertDesc_perm k x ys).cons y).trans (List.Perm.swap x y ys)
    · simp only [insertDesc, if_neg h]
      exact List.Perm.refl _

theorem isortDesc_perm (k : α → Int) : ∀ (l : List α), (isortDesc k l).Perm l
  | [] => List.Perm.refl _
  | x :: xs => (insertDesc_perm k x (isortDesc k xs)).trans ((isortDesc_perm k xs).cons x)

theorem pairwise_insertDesc (k : α → Int) (x : α) : ∀ (l : List α),
    l.Pairwise (fun a b => k b ≤ k a) → (insertDesc k x l).Pairwise (fun a b => k b ≤ k a)
  | [], _ => by simp [insertDesc]
  | y :: ys, hp => by
    rcases List.pairwise_cons.mp hp with ⟨hy, hys⟩
    by_cases h : k x < k y
    · simp only [insertDesc, if_pos h]
      refine List.pairwise_cons.mpr ⟨?_, pairwise_insertDesc k x ys hys⟩
      intro z hz
      rcases List.mem_cons.mp ((insertDesc_perm k x ys).mem_iff.mp hz) with hzx | hzys
      · rw [hzx]; exact Int.le_of_lt h
      · exact hy z hzys
    · simp only [insertDesc, if_neg h]
      refine List.pairwise_cons.mpr ⟨?_, hp⟩
      intro z hz
      rcases List.mem_cons.mp hz with hzy | hzys
      · rw [hzy]; exact Int.not_lt.mp h
      · exact Int.le_trans (hy z hzys) (Int.not_lt.mp h)

theorem pairwise_isortDesc (k : α → Int) : ∀ (l : List α),
    (isortDesc k l).Pairwise (fun a b => k b ≤ k a)
  | [] => List.Pairwise.nil
  | x :: xs => pairwise_insertDesc k x _ (pairwise_isortDesc k xs)

/-! ### DataFrame lemmas -/

theorem contains_iff_mem (l : List String) (a : String) : l.contains a = true ↔ a ∈ l :=
  List.elem_iff

theorem foldl_addColumn (v : Cell) : ∀ (ms : List String) (df : DataFrame),
    ms.foldl (fun d c => addColumn d c v) df
      = ⟨df.cols ++ ms, df.rows.map (fun r => r ++ List.replicate ms.length v)⟩
  | [], df => by simp [addColumn]
  | m :: ms, df => by
    rw [List.foldl_cons, foldl_addColumn v ms (addColumn df m v)]
    simp only [addColumn, List.map_map, List.length_cons]
    congr 1
    · simp
    · apply List.map_congr_left
      intro r _
      simp [Function.comp, List.append_assoc, List.replicate_succ]

theorem repairColumns_eq (df : DataFrame) :
    repairColumns df = ⟨df.cols ++ missing_cols df,
      df.rows.map (fun r => r ++ List.replicate (missing_cols df).length (Cell.str ""))⟩ :=
  foldl_addColumn (Cell.str "") (missing_cols df) df

theorem mem_missing_cols (df : DataFrame) (c : String) (hc : c ∈ expected_columns)
    (hn : c ∉ df.cols) : c ∈ missing_cols df := by
  refine List.mem_filter.mpr ⟨hc, ?_⟩
  cases h : df.cols.contains c with
  | true => exact absurd ((contains_iff_mem df.cols c).mp h) hn
  | false => rfl

theorem not_mem_cols_of_missing (df : DataFrame) (c : String) (hc : c ∈ missing_cols df) :
    c ∉ df.cols := by
  have h2 := List.of_mem_filter hc
  intro hmem
  rw [(contains_iff_mem df.cols c).mpr hmem] at h2
  simp at h2

theorem mem_repair_cols (df : DataFrame) (c : String) (hc : c ∈ expected_columns) :
    c ∈ (repairColumns df).cols := by
  rw [repairColumns_eq]
  show c ∈ df.cols ++ missing_cols df
  by_cases h : c ∈ df.cols
  · exact List.mem_append_left _ h
  · exact List.mem_append_right _ (mem_missing_cols df c hc h)

theorem repair_rows_length (df : DataFrame) :
    (repairColumns df).rows.length = df.rows.length := by
  rw [repairColumns_eq]
  exact List.length_map _ _

theorem mkDF_rows (headers : List String) (rows : List (List String)) (hr : rows ≠ []) :
    mkDF headers rows = ⟨headers, rows.map (fun r => r.map Cell.str)⟩ := by
  cases rows with
  | nil => exact absurd rfl hr
  | cons r rs => rfl

theorem mkDF_rows_length (headers : List String) (rows : List (List String)) :
    (mkDF headers rows).rows.length = rows.length := by
  cases rows with
  | nil => rfl
  | cons r rs => simp [mkDF]

theorem mkDF_wf (headers : List String) (rows : List (List String)) (hal : Aligned headers rows) :
    ∀ r ∈ (mkDF headers rows).rows, r.length = (mkDF headers rows).cols.length := by
  cases rows with
  | nil => intro r hr; simp [mkDF] at hr
  | cons r0 rs =>
    intro r hr
    rw [mkDF_rows headers (r0 :: rs) (by simp)] at hr ⊢
    simp only [List.mem_map] at hr
    rcases hr with ⟨row, hrow, rfl⟩
    show (row.map Cell.str).length = headers.length
    rw [List.length_map]
    exact hal row hrow

theorem repairColumns_wf (df : DataFrame)
    (hwf : ∀ r ∈ df.rows, r.length = df.cols.length) :
    ∀ r ∈ (repairColumns df).rows, r.length = (repairColumns df).cols.length := by
  intro r hr
  rw [repairColumns_eq] at hr ⊢
  simp only [List.mem_map] at hr
  rcases hr with ⟨row, hrow, rfl⟩
  show (row ++ List.replicate (missing_cols df).length (Cell.str "")).length
    = (df.cols ++ missing_cols df).length
  simp [hwf row hrow]

theorem sort_rows_perm (df : DataFrame) :
    (sort_values_date_desc df).rows.Perm df.rows := by
  show (isortDesc _ (df.rows.filter _) ++ df.rows.filter _).Perm df.rows
  exact ((isortDesc_perm _ _).append_right _).trans (List.filter_append_perm _ df.rows)

theorem dateColOf_sort_perm (df : DataFrame) :
    (dateColOf (sort_values_date_desc df)).Perm (dateColOf df) :=
  (sort_rows_perm df).map _

theorem dateColOf_coerce (parse : String → Option Int) (df : DataFrame)
    (hwf : ∀ r ∈ df.rows, r.length = df.cols.length) (hd : "Date" ∈ df.cols) :
    dateColOf (coerceDates parse df)
      = df.rows.map (fun r =>
          Cell.ts (parse (nthD (Cell.str "") (colIdx df.cols "Date") r).asStr)) := by
  unfold dateColOf coerceDates
  simp only [List.map_map]
  apply List.map_congr_left
  intro r hr
  show nthD (Cell.str "") (colIdx df.cols "Date")
      (mapAt (fun c => Cell.ts (parse c.asStr)) (colIdx df.cols "Date") r)
    = Cell.ts (parse (nthD (Cell.str "") (colIdx df.cols "Date") r).asStr)
  rw [nthD_mapAt_self]
  rw [hwf r hr]
  exact colIdx_lt_length df.cols "Date" hd

theorem keyGE_none (x : Option Int) : keyGE x none := by
  cases x <;> exact True.intro

theorem dateKey_none_of_mem_filter (df : DataFrame) (r : List Cell)
    (hr : r ∈ df.rows.filter (fun r => !(dateKey df.cols r).isSome)) :
    dateKey df.cols r = none := by
  have h := List.of_mem_filter hr
  cases hk : dateKey df.cols r with
  | none => rfl
  | some v => simp [hk] at h

theorem pairwise_keyGE_sort (df : DataFrame) :
    (dateKeys (sort_values_date_desc df)).Pairwise keyGE := by
  have hmain : List.Pairwise (fun a b => keyGE (dateKey df.cols a) (dateKey df.cols b))
      (isortDesc (fun r => (dateKey df.cols r).getD 0)
          (df.rows.filter (fun r => (dateKey df.cols r).isSome))
        ++ df.rows.filter (fun r => !(dateKey df.cols r).isSome)) := by
    rw [List.pairwise_append]
    refine ⟨?_, ?_, ?_⟩
    · refine (pairwise_isortDesc (fun r => (dateKey df.cols r).getD 0)
        (df.rows.filter (fun r => (dateKey df.cols r).isSome))).imp_of_mem ?_
      intro a b ha hb hle
      have ha2 : (dateKey df.cols a).isSome = true :=
        (List.mem_filter.mp ((isortDesc_perm (fun r => (dateKey df.cols r).getD 0)
          (df.rows.filter (fun r => (dateKey df.cols r).isSome))).mem_iff.mp ha)).2
      have hb2 : (dateKey df.cols b).isSome = true :=
        (List.mem_filter.mp ((isortDesc_perm (fun r => (dateKey df.cols r).getD 0)
          (df.rows.filter (fun r => (dateKey df.cols r).isSome))).mem_iff.mp hb)).2
      rcases Option.isSome_iff_exists.mp ha2 with ⟨x, hx⟩
      rcases Option.isSome_iff_exists.mp hb2 with ⟨y, hy⟩
      have hle2 : (dateKey df.cols b).getD 0 ≤ (dateKey df.cols a).getD 0 := hle
      rw [hx, hy] at hle2
      show keyGE (dateKey df.cols a) (dateKey df.cols b)
      rw [hx, hy]
      show y ≤ x
      simpa using hle2
    · refine List.pairwise_of_forall_mem_list ?_
      intro a _ b hb
      show keyGE (dateKey df.cols a) (dateKey df.cols b)
      rw [dateKey_none_of_mem_filter df b hb]
      exact keyGE_none _
    · intro a _ b hb
      show keyGE (dateKey df.cols a) (dateKey df.cols b)
      rw [dateKey_none_of_mem_filter df b hb]
      exact keyGE_none _
  exact List.pairwise_map.mpr hmain

theorem processFetched_fst_of_ne (parse : String → Option Int) (headers : List String)
    (rows : List (List String)) (hr : rows ≠ []) :
    (processFetched parse headers rows).1
      = sort_values_date_desc (coerceDates parse (repairColumns (mkDF headers rows))) := by
  have hcontains : (repairColumns (mkDF headers rows)).cols.contains "Date" = true :=
    (contains_iff_mem _ _).mpr (mem_repair_cols _ "Date" (by simp [expected_columns]))
  have hlen : (repairColumns (mkDF headers rows)).rows.length = rows.length := by
    rw [repair_rows_length, mkDF_rows_length]
  have hne : (repairColumns (mkDF headers rows)).rows.isEmpty = false := by
    cases he : (repairColumns (mkDF headers rows)).rows with
    | nil => rw [he] at hlen; exact absurd hlen.symm (by simpa using hr)
    | cons r rs => rfl
  simp only [processFetched]
  rw [hcontains, hne]
  rfl

theorem coerce_rows_length (parse : String → Option Int) (df : DataFrame) :
    (coerceDates parse df).rows.length = df.rows.length :=
  List.length_map _ _

theorem sort_rows_length (df : DataFrame) :
    (sort_values_date_desc df).rows.length = df.rows.length :=
  (sort_rows_perm df).length_eq

theorem processFetched_rows_length (parse : String → Option Int) (headers : List String)
    (rows : List (List String)) :
    (processFetched parse headers rows).1.rows.length = rows.length := by
  have hlen : (repairColumns (mkDF headers rows)).rows.length = rows.length := by
    rw [repair_rows_length, mkDF_rows_length]
  simp only [processFetched]
  by_cases hb : ((repairColumns (mkDF headers rows)).cols.contains "Date"
      && !(repairColumns (mkDF headers rows)).rows.isEmpty) = true
  · rw [if_pos hb]
    show (sort_values_date_desc (coerceDates parse (repairColumns
      (mkDF headers rows)))).rows.length = rows.length
    rw [sort_rows_length, coerce_rows_length]
    exact hlen
  · rw [if_neg hb]
    exact hlen

theorem pairwise_keyGE_processFetched (parse : String → Option Int) (headers : List String)
    (rows : List (List String)) :
    (dateKeys (processFetched parse headers rows).1).Pairwise keyGE := by
  simp only [processFetched]
  by_cases hb : ((repairColumns (mkDF headers rows)).cols.contains "Date"
      && !(repairColumns (mkDF headers rows)).rows.isEmpty) = true
  · rw [if_pos hb]
    exact pairwise_keyGE_sort _
  · rw [if_neg hb]
    have hcontains : (repairColumns (mkDF headers rows)).cols.contains "Date" = true :=
      (contains_iff_mem _ _).mpr (mem_repair_cols _ "Date" (by simp [expected_columns]))
    have hnil : (repairColumns (mkDF headers rows)).rows = [] := by
      cases he : (repairColumns (mkDF headers rows)).rows.isEmpty with
      | true => exact List.isEmpty_iff.mp (by rw [he])
      | false => exact absurd (by rw [hcontains, he]; rfl) hb
    show (dateKeys (repairColumns (mkDF headers rows))).Pairwise keyGE
    unfold dateKeys
    rw [hnil]
    exact List.Pairwise.nil

theorem load_eq_of_cred (parse : String → Option Int) (env : Env)
    (hcred : (env.hasSecrets || env.credFileExists) = true) :
    load_news_data parse env = runFetch parse env.outcome := by
  unfold load_news_data
  cases hs : env.hasSecrets with
  | true => simp
  | false =>
    rw [hs] at hcred
    simp only [Bool.false_or] at hcred
    simp [hcred]

theorem cred_false_of_not (env : Env)
    (hcred : ¬(env.hasSecrets || env.credFileExists) = true) :
    env.hasSecrets = false ∧ env.credFileExists = false := by
  constructor
  · cases h2 : env.hasSecrets with
    | false => rfl
    | true => exact absurd (by rw [h2]; rfl) hcred
  · cases h2 : env.credFileExists with
    | false => rfl
    | true =>
      cases h3 : env.hasSecrets with
      | false => exact absurd (by rw [h2, h3]; rfl) hcred
      | true => exact absurd (by rw [h3]; rfl) hcred

theorem load_dateKeys_pairwise (parse : String → Option Int) (env : Env) :
    (dateKeys (load_news_data parse env).1).Pairwise keyGE := by
  by_cases hcred : (env.hasSecrets || env.credFileExists) = true
  · rw [load_eq_of_cred parse env hcred]
    cases ho : env.outcome with
    | raised e => exact List.Pairwise.nil
    | fetched headers rows => exact pairwise_keyGE_processFetched parse headers rows
  · rcases cred_false_of_not env hcred with ⟨hs, hf⟩
    unfold load_news_data
    rw [hs, hf]
    exact List.Pairwise.nil

/-! ### FeedIngestor dedup lemmas -/

theorem dedupGo_sublist : ∀ (l : List FeedEntry) (seen : List String),
    (dedupGo seen l).Sublist l
  | [], _ => List.Sublist.slnil
  | e :: es, seen => by
    unfold dedupGo
    by_cases h : e.link ∈ seen
    · rw [if_pos h]
      exact (dedupGo_sublist es seen).cons e
    · rw [if_neg h]
      exact (dedupGo_sublist es (e.link :: seen)).cons₂ e

theorem dedupGo_filter (s : String) : ∀ (l : List FeedEntry) (seen : List String),
    (dedupGo seen l).filter (fun e => e.link == s)
      = if s ∈ seen then [] else (l.filter (fun e => e.link == s)).take 1
  | [], seen => by
    unfold dedupGo
    by_cases h : s ∈ seen <;> simp [h]
  | e :: es, seen => by
    unfold dedupGo
    by_cases hm : e.link ∈ seen
    · rw [if_pos hm, dedupGo_filter s es seen]
      by_cases hs : s ∈ seen
      · rw [if_pos hs, if_pos hs]
      · have hne : (e.link == s) = false := by
          rw [beq_eq_false_iff_ne]
          intro hh
          exact hs (hh ▸ hm)
        rw [if_neg hs, if_neg hs]
        have hf : (e :: es).filter (fun e => e.link == s)
            = es.filter (fun e => e.link == s) := by
          simp [List.filter_cons, hne]
        rw [hf]
    · rw [if_neg hm]
      by_cases he : e.link = s
      · have hs : s ∉ seen := he ▸ hm
        have hbe : (e.link == s) = true := beq_iff_eq.mpr he
        rw [if_neg hs]
        have h1 : (e :: dedupGo (e.link :: seen) es).filter (fun e => e.link == s)
            = e :: (dedupGo (e.link :: seen) es).filter (fun e => e.link == s) := by
          simp [List.filter_cons, hbe]
        rw [h1, dedupGo_filter s es (e.link :: seen)]
        have hs2 : s ∈ e.link :: seen := List.mem_cons.mpr (Or.inl he.symm)
        rw [if_pos hs2]
        have h2 : (e :: es).filter (fun e => e.link == s)
            = e :: es.filter (fun e => e.link == s) := by
          simp [List.filter_cons, hbe]
        rw [h2]
        simp
      · have hbe : (e.link == s) = false := beq_eq_false_iff_ne.mpr he
        have h1 : (e :: dedupGo (e.link :: seen) es).filter (fun e => e.link == s)
            = (dedupGo (e.link :: seen) es).filter (fun e => e.link == s) := by
          simp [List.filter_cons, hbe]
        rw [h1, dedupGo_filter s es (e.link :: seen)]
        have hmem : (s ∈ e.link :: seen) ↔ (s ∈ seen) := by
          constructor
          · intro hh
            rcases List.mem_cons.mp hh with hh1 | hh2
            · exact absurd hh1.symm he
            · exact hh2
          · exact fun hh => List.Mem.tail _ hh
        have h2 : (e :: es).filter (fun e => e.link == s)
            = es.filter (fun e => e.link == s) := by
          simp [List.filter_cons, hbe]
        rw [h2]
        by_cases hs : s ∈ seen
        · rw [if_pos (hmem.mpr hs), if_pos hs]
        · rw [if_neg (fun hh => hs (hmem.mp hh)), if_neg hs]

theorem repaired_cell_empty (parse : String → Option Int) (df : DataFrame)
    (hwf : ∀ r ∈ df.rows, r.length = df.cols.length)
    (c : String) (hc : c ∈ missing_cols df) (hcd : c ≠ "Date")
    (r : List Cell)
    (hr : r ∈ (sort_values_date_desc (coerceDates parse (repairColumns df))).rows) :
    nthD (Cell.str "") (colIdx (repairColumns df).cols c) r = Cell.str "" := by
  have hr2 : r ∈ (coerceDates parse (repairColumns df)).rows :=
    (sort_rows_perm _).mem_iff.mp hr
  simp only [coerceDates, List.mem_map] at hr2
  rcases hr2 with ⟨r1, hr1, rfl⟩
  rw [repairColumns_eq] at hr1
  simp only [List.mem_map] at hr1
  rcases hr1 with ⟨row, hrow, rfl⟩
  have hcnot : c ∉ df.cols := not_mem_cols_of_missing df c hc
  have hrowlen : row.length = df.cols.length := hwf row hrow
  have hcols : (repairColumns df).cols = df.cols ++ missing_cols df := by
    rw [repairColumns_eq]
  have hcidx : colIdx (repairColumns df).cols c
      = df.cols.length + colIdx (missing_cols df) c := by
    rw [hcols]
    exact colIdx_append_right (missing_cols df) df.cols c hcnot
  have hdne : colIdx (repairColumns df).cols "Date" ≠ colIdx (repairColumns df).cols c := by
    rw [hcols]
    by_cases hd : "Date" ∈ df.cols
    · rw [colIdx_append_left (missing_cols df) df.cols "Date" hd,
        colIdx_append_right (missing_cols df) df.cols c hcnot]
      have hlt := colIdx_lt_length df.cols "Date" hd
      omega
    · have hdm : "Date" ∈ missing_cols df := mem_missing_cols df "Date" (by decide) hd
      rw [colIdx_append_right (missing_cols df) df.cols "Date" hd,
        colIdx_append_right (missing_cols df) df.cols c hcnot]
      have hne := colIdx_ne_of_ne (missing_cols df) "Date" c hdm hc (fun hh => hcd hh.symm)
      omega
  rw [nthD_mapAt_ne _ _ _ _ _ hdne, hcidx, ← hrowlen, nthD_append_right]
  exact nthD_replicate _ _ _ _ (colIdx_lt_length (missing_cols df) c hc)

/-! ### The claims -/

/-- C1 counterexample: the claim says the returned table contains exactly
the five expected columns and no other column; but on a successful fetch
whose worksheet carries an extra `Description` column, the table returned by
`load_news_data` still contains `Description` - the code only adds missing
expected columns, it never drops extra ones (and the rendering code even
reads an optional `Description` column, line 177). -/
theorem C1_counterexample :
    "Description" ∈ (load_news_data parseDateSimple envExtra).1.cols ∧
      "Description" ∉ expected_columns := by
  decide

/-- C1 (amended): every invocation of `load_news_data` - whatever columns
the upstream worksheet provides and whether or not the fetch succeeds -
returns a table containing each of the five expected columns `Date`,
`Company`, `Title`, `Link`, `Category`; columns beyond these five are
preserved rather than dropped, so the output is a superset, not exactly the
five. -/
theorem C1_all_expected_present (parse : String → Option Int) (env : Env)
    (c : String) (hc : c ∈ expected_columns) :
    c ∈ (load_news_data parse env).1.cols := by
  by_cases hcred : (env.hasSecrets || env.credFileExists) = true
  · rw [load_eq_of_cred parse env hcred]
    cases ho : env.outcome with
    | raised e => exact hc
    | fetched headers rows =>
      show c ∈ (processFetched parse headers rows).1.cols
      simp only [processFetched]
      by_cases hb : ((repairColumns (mkDF headers rows)).cols.contains "Date"
          && !(repairColumns (mkDF headers rows)).rows.isEmpty) = true
      · rw [if_pos hb]
        show c ∈ (repairColumns (mkDF headers rows)).cols
        exact mem_repair_cols _ _ hc
      · rw [if_neg hb]
        exact mem_repair_cols _ _ hc
  · rcases cred_false_of_not env hcred with ⟨hs, hf⟩
    unfold load_news_data
    rw [hs, hf]
    exact hc

/-- C1 witness: the amended theorem applied at a concrete environment and
column. -/
theorem C1_witness :
    "Date" ∈ expected_columns ∧
      "Date" ∈ (load_news_data parseDateSimple envExtra).1.cols :=
  ⟨by decide, C1_all_expected_present parseDateSimple envExtra "Date" (by decide)⟩

/-- C2: `load_news_data` never raises - the embedding is a total function -
and whenever any step of credential reading, authentication or fetching
raises, the exception is caught and the result is an empty table still
carrying the five expected columns `Date`, `Company`, `Title`, `Link`,
`Category`. -/
theorem C2_exceptions_caught (parse : String → Option Int) (env : Env) (e : String)
    (h : env.outcome = .raised e) :
    (load_news_data parse env).1.cols = expected_columns ∧
      (load_news_data parse env).1.rows = [] := by
  cases hs : env.hasSecrets with
  | true =>
    unfold load_news_data
    rw [hs, h]
    exact ⟨rfl, rfl⟩
  | false =>
    cases hf : env.credFileExists with
    | true =>
      unfold load_news_data
      rw [hs, hf, h]
      exact ⟨rfl, rfl⟩
    | false =>
      unfold load_news_data
      rw [hs, hf]
      exact ⟨rfl, rfl⟩

/-- C2 witness: a concrete raising fetch yields the empty expected table. -/
theorem C2_witness :
    (load_news_data parseDateSimple ⟨true, true, .raised "boom"⟩).1.cols = expected_columns ∧
      (load_news_data parseDateSimple ⟨true, true, .raised "boom"⟩).1.rows = [] :=
  C2_exceptions_caught parseDateSimple ⟨true, true, .raised "boom"⟩ "boom" rfl

/-- C3 counterexample: the claim says the date value of every output row is
always a valid timestamp, with unparsable dates degrading to the current
time and never to a null value; but on a successful fetch of one row whose
`Date` text is unparsable, the returned `Date` value is the `NaT` null
marker `Cell.ts none`, which holds no valid timestamp. -/
theorem C3_counterexample :
    dateColOf (load_news_data parseDateSimple envBad).1 = [Cell.ts none] ∧
      Cell.validTs (Cell.ts none) = false := by
  decide

/-- C3 (amended): for every row of the fetched sheet the output `Date` value
is a defined timestamp marker `Cell.ts o` - never absent and never an error -
but a missing or unparsable date degrades to the null marker `Cell.ts none`
(`NaT`), not to the current time. -/
theorem C3_date_marker_total (parse : String → Option Int) (env : Env)
    (headers : List String) (rows : List (List String))
    (h : env.outcome = .fetched headers rows) (hal : Aligned headers rows) :
    ∀ cell ∈ dateColOf (load_news_data parse env).1, ∃ o, cell = Cell.ts o := by
  by_cases hcred : (env.hasSecrets || env.credFileExists) = true
  · rw [load_eq_of_cred parse env hcred, h]
    simp only [runFetch]
    by_cases hn : rows = []
    · intro cell hcell
      rw [hn] at hcell
      have hnil : (processFetched parse headers []).1.rows = [] :=
        List.length_eq_zero.mp (processFetched_rows_length parse headers [])
      simp [dateColOf, hnil] at hcell
    · rw [processFetched_fst_of_ne parse headers rows hn]
      intro cell hcell
      have hcell2 : cell ∈ dateColOf (coerceDates parse (repairColumns (mkDF headers rows))) :=
        (dateColOf_sort_perm _).mem_iff.mp hcell
      rw [dateColOf_coerce parse _
        (repairColumns_wf _ (mkDF_wf headers rows hal))
        (mem_repair_cols _ "Date" (by decide))] at hcell2
      simp only [List.mem_map] at hcell2
      rcases hcell2 with ⟨r1, _, rfl⟩
      exact ⟨_, rfl⟩
  · rcases cred_false_of_not env hcred with ⟨hs, hf⟩
    unfold load_news_data
    rw [hs, hf]
    intro cell hcell
    simp [dateColOf, emptyExpected] at hcell

/-- C3 witness: the amended theorem applied at the unparsable-date
environment; the resulting marker is the null `NaT` marker. -/
theorem C3_witness :
    Cell.ts none ∈ dateColOf (load_news_data parseDateSimple envBad).1 ∧
      ∃ o, Cell.ts none = Cell.ts o :=
  ⟨by decide, C3_date_marker_total parseDateSimple envBad _ _ rfl (by decide)
    (Cell.ts none) (by decide)⟩

/-- C4: during date coercion every value of the `Date` column is converted
to a timestamp marker: the `Date` column of the returned table is, up to
the permutation performed by the sort, exactly the map of the
`pd.to_datetime` oracle over the `Date` texts of the repaired table - each
individually unparsable value becomes the null marker `Cell.ts none` rather
than failing the fetch. -/
theorem C4_coerces_every_value (parse : String → Option Int) (env : Env)
    (headers : List String) (rows : List (List String))
    (hcred : (env.hasSecrets || env.credFileExists) = true)
    (h : env.outcome = .fetched headers rows) (hal : Aligned headers rows) :
    (dateColOf (load_news_data parse env).1).Perm
      ((repairColumns (mkDF headers rows)).rows.map (fun r =>
        Cell.ts (parse (nthD (Cell.str "")
          (colIdx (repairColumns (mkDF headers rows)).cols "Date") r).asStr))) := by
  rw [load_eq_of_cred parse env hcred, h]
  simp only [runFetch]
  by_cases hn : rows = []
  · rw [hn]
    have hnil : (repairColumns (mkDF headers [])).rows = [] := by
      have hl := repair_rows_length (mkDF headers [])
      rw [mkDF_rows_length] at hl
      exact List.length_eq_zero.mp hl
    have hnil2 : (processFetched parse headers []).1.rows = [] :=
      List.length_eq_zero.mp (processFetched_rows_length parse headers [])
    have hLHS : dateColOf (processFetched parse headers []).1 = [] := by
      simp [dateColOf, hnil2]
    rw [hLHS, hnil, List.map_nil]
  · rw [processFetched_fst_of_ne parse headers rows hn]
    refine (dateColOf_sort_perm _).trans ?_
    rw [dateColOf_coerce parse _
      (repairColumns_wf _ (mkDF_wf headers rows hal))
      (mem_repair_cols _ "Date" (by decide))]

/-- C4 witness: the theorem applied at a concrete two-row environment. -/
theorem C4_witness :
    (dateColOf (load_news_data parseDateSimple envTwo).1).Perm
      ((repairColumns (mkDF ["Date", "Title"]
          [["2024-01-01", "A"], ["2024-01-02", "B"]])).rows.map (fun r =>
        Cell.ts (parseDateSimple (nthD (Cell.str "")
          (colIdx (repairColumns (mkDF ["Date", "Title"]
            [["2024-01-01", "A"], ["2024-01-02", "B"]])).cols "Date") r).asStr))) :=
  C4_coerces_every_value parseDateSimple envTwo _ _ (by decide) rfl (by decide)

/-- C5: the rows of the table returned by `load_news_data` are sorted by the
coerced `Date` key in descending order - the sequence of row keys is
pairwise `keyGE` (real timestamps nonincreasing, `NaT` below every
timestamp); in particular this holds whenever the fetched table has a
non-empty `Date` column. -/
theorem C5_sorted_date_desc (parse : String → Option Int) (env : Env) :
    (dateKeys (load_news_data parse env).1).Pairwise keyGE :=
  load_dateKeys_pairwise parse env

/-- C7: repairing missing columns never drops rows and never fails: on any
successful fetch the returned table has exactly as many rows as the
worksheet supplied, and every expected column that was absent upstream
(apart from the subsequently coerced `Date` column) reads as empty text in
every returned row. -/
theorem C7_repair_never_drops_rows (parse : String → Option Int) (env : Env)
    (headers : List String) (rows : List (List String))
    (hcred : (env.hasSecrets || env.credFileExists) = true)
    (h : env.outcome = .fetched headers rows) (hal : Aligned headers rows) :
    (load_news_data parse env).1.rows.length = rows.length ∧
      ∀ c ∈ missing_cols (mkDF headers rows), c ≠ "Date" →
        ∀ r ∈ (load_news_data parse env).1.rows,
          nthD (Cell.str "") (colIdx (load_news_data parse env).1.cols c) r
            = Cell.str "" := by
  rw [load_eq_of_cred parse env hcred, h]
  simp only [runFetch]
  refine ⟨processFetched_rows_length parse headers rows, ?_⟩
  intro c hc hcd r hr
  by_cases hn : rows = []
  · rw [hn] at hr
    have hnil : (processFetched parse headers []).1.rows = [] :=
      List.length_eq_zero.mp (processFetched_rows_length parse headers [])
    rw [hnil] at hr
    exact absurd hr (List.not_mem_nil r)
  · rw [processFetched_fst_of_ne parse headers rows hn] at hr ⊢
    exact repaired_cell_empty parse (mkDF headers rows)
      (mkDF_wf headers rows hal) c hc hcd r hr

/-- C7 witness: the theorem applied at a concrete environment whose
worksheet has only the `Date` and `Title` columns and two rows. -/
theorem C7_witness :
    (load_news_data parseDateSimple envTwo).1.rows.length = 2 :=
  (C7_repair_never_drops_rows parseDateSimple envTwo _ _ (by decide) rfl (by decide)).1

/-- C8: when neither the Streamlit secret store nor the local
`credentials.json` file is available, `load_news_data` reports the
missing-credentials error message and returns the empty table with the five
expected columns - and, being a total function, raises nothing. -/
theorem C8_no_credentials (parse : String → Option Int) (env : Env)
    (h1 : env.hasSecrets = false) (h2 : env.credFileExists = false) :
    (load_news_data parse env).1.cols = expected_columns ∧
      (load_news_data parse env).1.rows = [] ∧
      (load_news_data parse env).2
        = [Msg.error
            "Google Sheets API credentials not found. Please add credentials.json file."] := by
  unfold load_news_data
  rw [h1, h2]
  exact ⟨rfl, rfl, rfl⟩

/-- C8 witness: with both credential sources absent - even though the
backing data would have been available - the result is the empty expected
table plus the error message. -/
theorem C8_witness :
    (load_news_data parseDateSimple
        ⟨false, false, .fetched ["Date"] [["2024-01-01"]]⟩).1.cols = expected_columns ∧
      (load_news_data parseDateSimple
        ⟨false, false, .fetched ["Date"] [["2024-01-01"]]⟩).1.rows = [] ∧
      (load_news_data parseDateSimple
        ⟨false, false, .fetched ["Date"] [["2024-01-01"]]⟩).2
        = [Msg.error
            "Google Sheets API credentials not found. Please add credentials.json file."] :=
  C8_no_credentials parseDateSimple ⟨false, false, .fetched ["Date"] [["2024-01-01"]]⟩ rfl rfl

/-- C9: in one FeedIngestor run (modelled from the spec: the feed pipeline
is not part of `src/`), the deduplicated output is a sublist of the input -
so the relative order of the remaining records is preserved - and for every
non-empty link value the output keeps exactly the first entry of the input
carrying that link, skipping all later duplicates. -/
theorem C9_dedup_first_wins (l : List FeedEntry) :
    (dedupByLink l).Sublist l ∧
      ∀ s : String, s ≠ "" →
        (dedupByLink l).filter (fun e => e.link == s)
          = (l.filter (fun e => e.link == s)).take 1 := by
  constructor
  · exact dedupGo_sublist l []
  · intro s _
    rw [dedupByLink, dedupGo_filter s l []]
    rw [if_neg (List.not_mem_nil s)]

/-- C9 witness: the dedup theorem applied to three concrete entries, two of
which share the link. -/
theorem C9_witness :
    ("http://dup" : String) ≠ "" ∧
      (dedupByLink [feedA, feedB, feedC]).filter (fun e => e.link == "http://dup")
        = ([feedA, feedB, feedC].filter (fun e => e.link == "http://dup")).take 1 :=
  ⟨by decide, (C9_dedup_first_wins [feedA, feedB, feedC]).2 "http://dup" (by decide)⟩

/-- C10: after the date-descending sort, every row whose coerced `Date`
failed to parse (`NaT`, the null key) is placed after all rows carrying a
real timestamp: along the key sequence of the returned table, any row
preceding a non-null-keyed row is itself non-null-keyed. -/
theorem C10_null_dates_last (parse : String → Option Int) (env : Env) :
    (dateKeys (load_news_data parse env).1).Pairwise
      (fun a b => b ≠ none → a ≠ none) := by
  refine (load_dateKeys_pairwise parse env).imp ?_
  intro a b hge hbne
  cases b with
  | none => exact absurd rfl hbne
  | some y =>
    cases a with
    | none => exact False.elim hge
    | some x => exact Option.some_ne_none x

end Portconews
